import Mathlib

/-!
Verification of the data-reconciliation and metrics engine of
`app_vistoriador.py` (production dashboard for vehicle inspectors).

The relevant parts of the Python source are shallowly embedded below:

* raw sheet cells are `Option String` (`none` models a missing cell / pandas
  `NaN`, which arises for a whole column when several sheets are concatenated
  and one of them lacks that column);
* parsed dates (`parse_date_any`, whose output feeds every date-dependent
  step) are abstracted as day indices `Option Nat`, with `none` modelling
  `NaT` (an unparseable or empty date cell);
* `DataFrame` rows are lists of structures; pandas' stable `mergesort` used by
  `df.sort_values(["__DATA__", col_chassi], kind="mergesort")` is embedded as
  sorting by the total key (date with `NaT` last, chassi, original position) —
  for a stable sort the original position is exactly the tie-break, so the two
  descriptions yield the same list;
* numeric goal cells are rationals, `float('nan')` is `none`.
-/

/-- Python's whitespace test for `str.strip`, restricted to the ASCII
whitespace characters (space, tab, newline, carriage return, vertical tab,
form feed). -/
def pySpace (c : Char) : Bool :=
  c.toNat == 32 || c.toNat == 9 || c.toNat == 10 || c.toNat == 13 ||
  c.toNat == 11 || c.toNat == 12

/-- Python `str.strip()`: drop leading and trailing whitespace. -/
def pyStrip (s : String) : String :=
  String.mk (((s.data.dropWhile pySpace).reverse.dropWhile pySpace).reverse)

/-- Python `str.upper()` on the ASCII range (`Char.toUpper` maps `a`–`z` to
`A`–`Z` and fixes everything else, which matches Python on ASCII input). -/
def pyUpper (s : String) : String :=
  String.mk (s.data.map Char.toUpper)

/-- The helper `_upper_strip` (line 280): `str(x).upper().strip()` when the
cell is present, `""` when it is `NaN`. -/
def upperStrip : Option String → String
  | none => ""
  | some s => pyStrip (pyUpper s)

/-- Python `str(x)` as applied by `.astype(str)` to a cell: a missing cell
(`NaN`) is rendered as the string `"nan"`. -/
def astypeStr : Option String → String
  | none => "nan"
  | some s => s

/-- The `VISTORIADOR` derivation when both a `PERITO` and a `DIGITADOR`
column are present (lines 312–317): use the perito value unless
`str(perito).strip()` is empty, else the digitador value, both passed through
`_upper_strip`. -/
def vistoriador (perito digitador : Option String) : String :=
  if pyStrip (astypeStr perito) ≠ "" then upperStrip perito
  else upperStrip digitador

/-- The inspector-derivation rule as the spec states it: the primary field
value, upper-cased/trimmed, when that value is non-empty after trimming,
otherwise the secondary field value upper-cased/trimmed.  (A missing primary
cell holds no non-empty value, so the rule falls back to the secondary.) -/
def vistoriadorSpec (perito digitador : Option String) : String :=
  if upperStrip perito ≠ "" then upperStrip perito else upperStrip digitador

/-- A raw sheet row, restricted to the columns the engine reads.  `dataParsed`
is the result of `parse_date_any` on the `DATA` cell (`none` = `NaT`). -/
structure RawRow where
  UNIDADE : Option String
  DATA : Option Nat
  CHASSI : Option String
  PERITO : Option String
  DIGITADOR : Option String
deriving DecidableEq, Repr

/-- A normalized record, before classification: lines 307–321 (`UNIDADE` and
`CHASSI` upper-stripped, parsed date, derived `VISTORIADOR`). -/
structure Rec0 where
  unidade : String
  chassi : String
  data : Option Nat
  vist : String
deriving DecidableEq, Repr

/-- Lines 307–321 applied to one row. -/
def normalizeRow (r : RawRow) : Rec0 :=
  { unidade := upperStrip r.UNIDADE
    chassi := upperStrip r.CHASSI
    data := r.DATA
    vist := vistoriador r.PERITO r.DIGITADOR }

/-- A normalized record together with its position in the original frame
(the position is the tie-break of the stable sort). -/
structure Rec where
  idx : Nat
  unidade : String
  chassi : String
  data : Option Nat
  vist : String
deriving DecidableEq, Repr

/-- Attach original positions, starting at `n`. -/
def attachIdxAux (n : Nat) : List Rec0 → List Rec
  | [] => []
  | r :: l => ⟨n, r.unidade, r.chassi, r.data, r.vist⟩ :: attachIdxAux (n + 1) l

/-- Attach original positions `0, 1, 2, …` to the normalized records. -/
def attachIdx (l : List Rec0) : List Rec :=
  attachIdxAux 0 l

/-- Lexicographic strict order on Python strings (code-point comparison),
on the underlying character lists. -/
def charListLt : List Char → List Char → Bool
  | _, [] => false
  | [], _ :: _ => true
  | a :: as, b :: bs => a.toNat < b.toNat || (a.toNat == b.toNat && charListLt as bs)

/-- Strict order on strings as Python compares them. -/
def strLtB (s t : String) : Bool :=
  charListLt s.data t.data

/-- Strict order on parsed dates: `NaT` (`none`) sorts after every real date
(pandas `sort_values` default `na_position="last"`). -/
def dLtB : Option Nat → Option Nat → Bool
  | none, _ => false
  | some _, none => true
  | some a, some b => a < b

/-- The total sort key of line 324: date ascending with `NaT` last, then
`CHASSI`, then original position (the stable-sort tie-break). -/
def keyLtB (r s : Rec) : Bool :=
  dLtB r.data s.data ||
  (r.data == s.data &&
    (strLtB r.chassi s.chassi ||
      (r.chassi == s.chassi && decide (r.idx < s.idx))))

/-- Insert into a list sorted by `keyLtB`. -/
def insertR (r : Rec) : List Rec → List Rec
  | [] => [r]
  | s :: l => if keyLtB r s then r :: s :: l else s :: insertR r l

/-- Sort by the total key of line 324 (the embedding of the stable
`df.sort_values(["__DATA__", col_chassi], kind="mergesort")`). -/
def insSort : List Rec → List Rec
  | [] => []
  | r :: l => insertR r (insSort l)

/-- The cumulative per-`CHASSI` count of line 325
(`df.groupby(col_chassi).cumcount()`): each record of the (already sorted)
frame is paired with the number of earlier records sharing its chassi. -/
def withOrdAux (prev : List Rec) : List Rec → List (Rec × Nat)
  | [] => []
  | r :: l =>
      (r, prev.countP (fun s => s.chassi == r.chassi)) ::
        withOrdAux (prev ++ [r]) l

/-- The normalized frame, sorted as in line 324. -/
def sortedRecs (rows : List RawRow) : List Rec :=
  insSort (attachIdx (rows.map normalizeRow))

/-- Lines 324–326: sort, cumulative count, and `IS_REV = (__ORD__ >= 1)`
(the Python code stores it as an `int` 0/1; it is a boolean here). -/
def classify (rows : List RawRow) : List (Rec × Bool) :=
  (withOrdAux [] (sortedRecs rows)).map (fun p => (p.1, decide (1 ≤ p.2)))

/-- Line 329: the banned placeholder units. -/
def BAN_UNIDS : List String :=
  ["POSTO CÓDIGO", "POSTO CODIGO", "CÓDIGO", "CODIGO", "", "—", "NAN"]

/-- Line 330: `df = df[~df[col_unid].isin(BAN_UNIDS)]`, applied after the
re-inspection classification.  This is the normalized output every later
stage consumes. -/
def pipeline (rows : List RawRow) : List (Rec × Bool) :=
  (classify rows).filter (fun p => !(BAN_UNIDS.contains p.1.unidade))

/-- A numeric goal cell as `pd.to_numeric(·, errors="coerce")` sees it: either
a numeric value (a number cell, or a string that pandas parses as a number) or
a non-numeric cell, which `to_numeric` maps to `NaN`.  The string-to-number
parser itself is folded into this representation. -/
inductive MetaCell
  | num (q : ℚ)
  | nonNumeric
deriving DecidableEq, Repr

/-- The value after `pd.to_numeric(·, errors="coerce").fillna(0)`. -/
def toNumericFilled : MetaCell → ℚ
  | .num q => q
  | .nonNumeric => 0

/-- The numpy float-to-int cast used by `.astype(int)`: truncation toward
zero. -/
def pyAstypeInt (q : ℚ) : Int :=
  if 0 ≤ q then Int.floor q else -(Int.floor (-q))

/-- Lines 193–194 of `ler_aba_metas`, applied to one `META_MENSAL` or
`DIAS_UTEIS` cell: `pd.to_numeric(..., errors="coerce").fillna(0).astype(int)`. -/
def metaCoerce (c : MetaCell) : Int :=
  pyAstypeInt (toNumericFilled c)

/-- A normalized goal row (the `METAS` sheet after `ler_aba_metas`).
`refMonth` is modelled from the spec: the reference month of the goal row
(as a comparable month index); the code under `src/` carries no
reference-month column for goals and never reads this field. -/
structure MetaRow where
  vist : String
  tipo : String
  META_MENSAL : Int
  DIAS_UTEIS : Int
  refMonth : Nat
deriving DecidableEq, Repr

/-- Lines 504–511 (`metas_use` re-normalization): upper-strip the inspector,
uppercase the type and map the alias `MOVEL` to `MÓVEL`. -/
def normMeta (m : MetaRow) : MetaRow :=
  { m with
    vist := pyStrip (pyUpper m.vist)
    tipo := if pyUpper m.tipo = "MOVEL" then "MÓVEL" else pyUpper m.tipo }

/-- The distinct inspectors of the filtered view: `groupby("VISTORIADOR")`
emits one group per distinct key (its output ordering is immaterial for every
property below). -/
def grpVists (view : List Rec) : List String :=
  (view.map Rec.vist).dedup

/-- Line 512 / line 718: `grp.merge(metas, on="VISTORIADOR", how="left")`.
A pandas left merge pairs every left row with every matching right row, and
keeps a left row with `NaN` goal fields when no right row matches. -/
def leftMerge (grp : List String) (metas : List MetaRow) : List (String × Option MetaRow) :=
  grp.flatMap (fun v =>
    let ms := metas.filter (fun m => m.vist == v)
    if ms.isEmpty then [(v, none)] else ms.map (fun m => (v, some m)))

/-- Lines 500–512: the resumo table's goal join — the per-inspector rows of
`grp` left-merged with the normalized goal rows, on the inspector name only. -/
def resumoJoin (view : List Rec) (metas : List MetaRow) : List (String × Option MetaRow) :=
  leftMerge (grpVists view) (metas.map normMeta)

/-- The goal fields a resumo row ends up with after lines 514–519
(`fillna("")` for the text fields, `to_numeric(...).fillna(0).astype(int)` for
the numeric ones). -/
structure FilledMeta where
  tipo : String
  META_MENSAL : Int
  DIAS_UTEIS : Int
deriving DecidableEq, Repr

/-- Lines 514–519 applied to one merged row. -/
def metaFill : Option MetaRow → FilledMeta
  | none => ⟨"", 0, 0⟩
  | some m => ⟨m.tipo, m.META_MENSAL, m.DIAS_UTEIS⟩

/-- The month of a day index.  Dates are abstract day indices; `monthOf` is
monotone, which is the only property of the year-month of a date that the
goal-selection rule relies on. -/
def monthOf (d : Nat) : Nat :=
  d / 31

/-- Modelled from the spec: `joinGoal` selects, per inspector, the goal row
whose `referenceMonth` equals the latest reference month for which the
inspector has any (dated) records within the current filtered view; `none`
when the inspector has no dated records or no goal row matches. -/
def specJoinGoal (v : String) (view : List Rec) (metas : List MetaRow) : Option MetaRow :=
  match (((view.filter (fun r => r.vist == v)).filterMap Rec.data).map monthOf).max? with
  | none => none
  | some m => (metas.filter (fun g => g.vist == v && g.refMonth == m)).head?

/-- Round half to even on rationals (Python's `round`, numpy/pandas
`.round(0)`). -/
def roundHalfEven (q : ℚ) : Int :=
  if q - (Int.floor q : ℚ) < 1/2 then Int.floor q
  else if (1:ℚ)/2 < q - (Int.floor q : ℚ) then Int.floor q + 1
  else if Int.floor q % 2 = 0 then Int.floor q else Int.floor q + 1

/-- The projection columns of one resumo row, lines 526–541.  Inputs:
`META_MENSAL`/`DIAS_UTEIS` from the joined goal (integers, line 518–519),
`LIQUIDO = VISTORIAS - REVISTORIAS` and `DIAS_PASSADOS` (non-negative
counts). -/
structure ResumoCalc where
  META_DIA : ℚ
  FALTANTE_MES : Int
  DIAS_RESTANTES : Int
  NECESSIDADE_DIA : ℚ
  MEDIA_DIA_ATUAL : ℚ
  PROJECAO_MES : ℚ
  TENDENCIA_PCT : Option ℚ
deriving DecidableEq, Repr

/-- Lines 526–541. -/
def resumoCalc (META_MENSAL DIAS_UTEIS : Int) (LIQUIDO DIAS_PASSADOS : Nat) : ResumoCalc :=
  let metaDia : ℚ := if 0 < DIAS_UTEIS then (META_MENSAL : ℚ) / (DIAS_UTEIS : ℚ) else 0
  let faltante : Int := max (META_MENSAL - (LIQUIDO : Int)) 0
  let diasRest : Int := max (DIAS_UTEIS - (DIAS_PASSADOS : Int)) 0
  let necessidade : ℚ := if 0 < diasRest then (faltante : ℚ) / (diasRest : ℚ) else 0
  let media : ℚ := if 0 < DIAS_PASSADOS then (LIQUIDO : ℚ) / (DIAS_PASSADOS : ℚ) else 0
  let projecao : ℚ := (roundHalfEven ((LIQUIDO : ℚ) + media * (diasRest : ℚ)) : ℚ)
  { META_DIA := metaDia
    FALTANTE_MES := faltante
    DIAS_RESTANTES := diasRest
    NECESSIDADE_DIA := necessidade
    MEDIA_DIA_ATUAL := media
    PROJECAO_MES := projecao
    TENDENCIA_PCT := if 0 < META_MENSAL then some (projecao / (META_MENSAL : ℚ) * 100) else none }

/-- Lines 843–849: the day actually used by the daily ranking.  `datesOk` is
the (multiset of) valid dates of the filtered view; `dates_avail` is its
ascending sort (line 831).  Returns the day used and whether a substitution
message was surfaced (`info_msg`). -/
def usedDay (datesOk : List Nat) (rankDay : Nat) : Nat × Bool :=
  if rankDay ∈ datesOk.insertionSort (· ≤ ·) then (rankDay, false)
  else
    match ((datesOk.insertionSort (· ≤ ·)).filter (· ≤ rankDay)).getLast? with
    | some d => (d, true)
    | none => (((datesOk.insertionSort (· ≤ ·)).getLast?).getD 0, true)

/-! ### Order lemmas for the sort key -/

theorem charListLt_irrefl : ∀ l : List Char, charListLt l l = false
  | [] => rfl
  | a :: as => by simp [charListLt, charListLt_irrefl as]

theorem charListLt_asymm : ∀ {a b : List Char},
    charListLt a b = true → charListLt b a = false
  | [], [], h => by simp [charListLt] at h
  | [], _ :: _, _ => rfl
  | _ :: _, [], h => by simp [charListLt] at h
  | x :: xs, y :: ys, h => by
      simp only [charListLt, Bool.or_eq_true, Bool.and_eq_true, decide_eq_true_eq,
        beq_iff_eq] at h ⊢
      rcases h with h | ⟨hxy, h⟩
      · simp only [Bool.or_eq_false_iff, Bool.and_eq_false_iff]
        constructor
        · simp only [decide_eq_false_iff_not]; omega
        · left; simp only [beq_eq_false_iff_ne, ne_eq]; omega
      · simp only [Bool.or_eq_false_iff, Bool.and_eq_false_iff]
        constructor
        · simp only [decide_eq_false_iff_not]; omega
        · right; exact charListLt_asymm h

theorem charListLt_trans : ∀ {a b c : List Char},
    charListLt a b = true → charListLt b c = true → charListLt a c = true
  | _, [], _, h, _ => by simp [charListLt] at h
  | _, _, [], _, h' => by simp [charListLt] at h'
  | [], _ :: _, _ :: _, _, _ => rfl
  | x :: xs, y :: ys, z :: zs, h, h' => by
      simp only [charListLt, Bool.or_eq_true, Bool.and_eq_true, decide_eq_true_eq,
        beq_iff_eq] at h h' ⊢
      rcases h with h | ⟨hxy, h⟩ <;> rcases h' with h' | ⟨hyz, h'⟩
      · left; omega
      · left; omega
      · left; omega
      · right; exact ⟨by omega, charListLt_trans h h'⟩

theorem charListLt_eq_of_not : ∀ {a b : List Char},
    charListLt a b = false → charListLt b a = false → a = b
  | [], [], _, _ => rfl
  | [], _ :: _, h, _ => by simp [charListLt] at h
  | _ :: _, [], _, h' => by simp [charListLt] at h'
  | x :: xs, y :: ys, h, h' => by
      simp only [charListLt, Bool.or_eq_false_iff, Bool.and_eq_false_iff,
        decide_eq_false_iff_not, beq_eq_false_iff_ne, ne_eq] at h h'
      obtain ⟨h1, h2⟩ := h
      obtain ⟨h3, h4⟩ := h'
      have hxy : x.toNat = y.toNat := by omega
      have hx : x = y := Char.eq_of_val_eq (UInt32.ext hxy)
      subst hx
      rcases h2 with h2 | h2
      · omega
      · rcases h4 with h4 | h4
        · omega
        · exact congrArg (x :: ·) (charListLt_eq_of_not h2 h4)

theorem strLtB_irrefl (s : String) : strLtB s s = false :=
  charListLt_irrefl s.data

theorem strLtB_asymm {s t : String} (h : strLtB s t = true) : strLtB t s = false :=
  charListLt_asymm h

theorem strLtB_trans {s t u : String} (h : strLtB s t = true) (h' : strLtB t u = true) :
    strLtB s u = true :=
  charListLt_trans h h'

theorem strLtB_eq_of_not {s t : String} (h : strLtB s t = false) (h' : strLtB t s = false) :
    s = t := by
  cases s; cases t
  exact congrArg String.mk (charListLt_eq_of_not h h')

theorem dLtB_irrefl (a : Option Nat) : dLtB a a = false := by
  cases a <;> simp [dLtB]

theorem dLtB_asymm : ∀ {a b : Option Nat}, dLtB a b = true → dLtB b a = false
  | none, _, h => by simp [dLtB] at h
  | some _, none, _ => rfl
  | some x, some y, h => by
      simp only [dLtB, decide_eq_true_eq] at h
      simp only [dLtB, decide_eq_false_iff_not]
      omega

theorem dLtB_trans : ∀ {a b c : Option Nat},
    dLtB a b = true → dLtB b c = true → dLtB a c = true
  | none, _, _, h, _ => by simp [dLtB] at h
  | some _, none, _, _, h' => by simp [dLtB] at h'
  | some _, some _, none, _, _ => rfl
  | some x, some y, some z, h, h' => by
      simp only [dLtB, decide_eq_true_eq] at h h' ⊢
      omega

theorem dLtB_eq_of_not : ∀ {a b : Option Nat},
    dLtB a b = false → dLtB b a = false → a = b
  | none, none, _, _ => rfl
  | none, some _, _, h' => by simp [dLtB] at h'
  | some _, none, h, _ => by simp [dLtB] at h
  | some x, some y, h, h' => by
      simp only [dLtB, decide_eq_false_iff_not] at h h'
      have : x = y := by omega
      simp [this]

theorem keyLtB_iff {r s : Rec} : keyLtB r s = true ↔
    (dLtB r.data s.data = true ∨
      (r.data = s.data ∧ (strLtB r.chassi s.chassi = true ∨
        (r.chassi = s.chassi ∧ r.idx < s.idx)))) := by
  simp [keyLtB]

theorem keyLtB_irrefl (r : Rec) : keyLtB r r = false := by
  simp [keyLtB, dLtB_irrefl, strLtB_irrefl]

theorem keyLtB_asymm {r s : Rec} (h : keyLtB r s = true) : keyLtB s r = false := by
  rw [keyLtB_iff] at h
  by_contra hc
  rw [Bool.not_eq_false, keyLtB_iff] at hc
  rcases h with h | ⟨hd, h⟩ <;> rcases hc with hc | ⟨hd', hc⟩
  · rw [dLtB_asymm h] at hc; exact Bool.false_ne_true hc
  · rw [hd'] at h; rw [dLtB_irrefl] at h; exact Bool.false_ne_true h
  · rw [hd] at hc; rw [dLtB_irrefl] at hc; exact Bool.false_ne_true hc
  · rcases h with h | ⟨hch, h⟩ <;> rcases hc with hc | ⟨hch', hc⟩
    · rw [strLtB_asymm h] at hc; exact Bool.false_ne_true hc
    · rw [hch'] at h; rw [strLtB_irrefl] at h; exact Bool.false_ne_true h
    · rw [hch] at hc; rw [strLtB_irrefl] at hc; exact Bool.false_ne_true hc
    · omega

theorem keyLtB_trans {r s t : Rec} (h : keyLtB r s = true) (h' : keyLtB s t = true) :
    keyLtB r t = true := by
  rw [keyLtB_iff] at h h' ⊢
  rcases h with h | ⟨hd, h⟩ <;> rcases h' with h' | ⟨hd', h'⟩
  · exact Or.inl (dLtB_trans h h')
  · rw [hd'] at h; exact Or.inl h
  · rw [hd]; exact Or.inl h'
  · refine Or.inr ⟨hd.trans hd', ?_⟩
    rcases h with h | ⟨hch, h⟩ <;> rcases h' with h' | ⟨hch', h'⟩
    · exact Or.inl (strLtB_trans h h')
    · rw [hch'] at h; exact Or.inl h
    · rw [hch]; exact Or.inl h'
    · exact Or.inr ⟨hch.trans hch', by omega⟩

theorem keyLtB_connex {r s : Rec} (h : r.idx ≠ s.idx) :
    keyLtB r s = true ∨ keyLtB s r = true := by
  rcases hd : dLtB r.data s.data with _ | _
  · rcases hd' : dLtB s.data r.data with _ | _
    · have hde : r.data = s.data := dLtB_eq_of_not hd hd'
      rcases hs : strLtB r.chassi s.chassi with _ | _
      · rcases hs' : strLtB s.chassi r.chassi with _ | _
        · have hse : r.chassi = s.chassi := strLtB_eq_of_not hs hs'
          rcases Nat.lt_or_ge r.idx s.idx with hi | hi
          · exact Or.inl (keyLtB_iff.mpr (Or.inr ⟨hde, Or.inr ⟨hse, hi⟩⟩))
          · exact Or.inr (keyLtB_iff.mpr
              (Or.inr ⟨hde.symm, Or.inr ⟨hse.symm, by omega⟩⟩))
        · exact Or.inr (keyLtB_iff.mpr (Or.inr ⟨hde.symm, Or.inl hs'⟩))
      · exact Or.inl (keyLtB_iff.mpr (Or.inr ⟨hde, Or.inl hs⟩))
    · exact Or.inr (keyLtB_iff.mpr (Or.inl hd'))
  · exact Or.inl (keyLtB_iff.mpr (Or.inl hd))

/-! ### The sort is a permutation and is strictly sorted -/

theorem insertR_perm (r : Rec) (l : List Rec) : (insertR r l).Perm (r :: l) := by
  induction l with
  | nil => exact List.Perm.refl _
  | cons s l ih =>
      by_cases h : keyLtB r s = true
      · simp [insertR, h]
      · simp only [insertR, h, if_false]
        exact ((ih.cons s).trans (List.Perm.swap r s l))

theorem insSort_perm (l : List Rec) : (insSort l).Perm l := by
  induction l with
  | nil => exact List.Perm.refl _
  | cons r l ih => exact (insertR_perm r (insSort l)).trans (ih.cons r)

theorem mem_insertR {x r : Rec} {l : List Rec} (h : x ∈ insertR r l) :
    x = r ∨ x ∈ l := by
  have := (insertR_perm r l).mem_iff.mp h
  simpa using this

theorem insertR_sorted (r : Rec) {l : List Rec}
    (h : l.Pairwise (fun a b => keyLtB b a = false)) :
    (insertR r l).Pairwise (fun a b => keyLtB b a = false) := by
  induction l with
  | nil => simp [insertR]
  | cons s l ih =>
      obtain ⟨hs, hl⟩ := List.pairwise_cons.mp h
      by_cases hrs : keyLtB r s = true
      · simp only [insertR, hrs, if_true]
        refine List.Pairwise.cons ?_ (List.Pairwise.cons hs hl)
        intro t ht
        rcases List.mem_cons.mp ht with rfl | ht
        · exact keyLtB_asymm hrs
        · by_contra hc
          rw [Bool.not_eq_false] at hc
          have : keyLtB t s = true := keyLtB_trans hc hrs
          rw [hs t ht] at this
          exact Bool.false_ne_true this
      · simp only [insertR, hrs, if_false]
        refine List.Pairwise.cons ?_ (ih hl)
        intro t ht
        rcases mem_insertR ht with rfl | ht
        · simpa using hrs
        · exact hs t ht

theorem insSort_sorted (l : List Rec) :
    (insSort l).Pairwise (fun a b => keyLtB b a = false) := by
  induction l with
  | nil => exact List.Pairwise.nil
  | cons r l ih => exact insertR_sorted r ih

theorem attachIdxAux_le (m : Nat) (l : List Rec0) :
    ∀ x ∈ attachIdxAux m l, m ≤ x.idx := by
  induction l generalizing m with
  | nil => intro x hx; simp [attachIdxAux] at hx
  | cons y l ih =>
      intro x hx
      rcases List.mem_cons.mp hx with rfl | hx
      · exact Nat.le_refl _
      · have := ih (m + 1) x hx
        omega

theorem attachIdxAux_pairwise (n : Nat) (l : List Rec0) :
    (attachIdxAux n l).Pairwise (fun a b => a.idx < b.idx) := by
  induction l generalizing n with
  | nil => exact List.Pairwise.nil
  | cons r l ih =>
      refine List.Pairwise.cons ?_ (ih (n + 1))
      intro t ht
      have := attachIdxAux_le (n + 1) l t ht
      change n < t.idx
      omega

theorem attachIdx_idx_nodup (l : List Rec0) :
    (attachIdx l).Pairwise (fun a b => a.idx ≠ b.idx) :=
  (attachIdxAux_pairwise 0 l).imp (fun h => by omega)

theorem sortedRecs_idx_nodup (rows : List RawRow) :
    (sortedRecs rows).Pairwise (fun a b => a.idx ≠ b.idx) := by
  have hperm := insSort_perm (attachIdx (rows.map normalizeRow))
  exact (hperm.pairwise_iff (fun h => Ne.symm h)).mpr
    (attachIdx_idx_nodup (rows.map normalizeRow))

theorem sortedRecs_strict (rows : List RawRow) :
    (sortedRecs rows).Pairwise (fun a b => keyLtB a b = true) := by
  have h1 := insSort_sorted (attachIdx (rows.map normalizeRow))
  have h2 := sortedRecs_idx_nodup rows
  refine (h1.and h2).imp ?_
  rintro a b ⟨hle, hne⟩
  rcases keyLtB_connex hne with h | h
  · exact h
  · rw [hle] at h; exact absurd h (Bool.false_ne_true)

/-! ### Characterizing the cumulative count -/

/-- The rank a record receives from `cumcount`: the number of records of the
frame sharing its chassi that precede it in the sort key. -/
def ordCount (rows : List RawRow) (r : Rec) : Nat :=
  (attachIdx (rows.map normalizeRow)).countP
    (fun s => s.chassi == r.chassi && keyLtB s r)

theorem withOrdAux_eq (l : List Rec) :
    ∀ prev : List Rec,
      (∀ s ∈ prev, ∀ r ∈ l, keyLtB s r = true) →
      l.Pairwise (fun a b => keyLtB a b = true) →
      withOrdAux prev l =
        l.map (fun x => (x, (prev ++ l).countP
          (fun s => s.chassi == x.chassi && keyLtB s x))) := by
  induction l with
  | nil => intro prev _ _; rfl
  | cons r l ih =>
      intro prev hsep hsort
      obtain ⟨hr, hl⟩ := List.pairwise_cons.mp hsort
      have hcount : prev.countP (fun s => s.chassi == r.chassi) =
          (prev ++ r :: l).countP (fun s => s.chassi == r.chassi && keyLtB s r) := by
        rw [List.countP_append]
        have h1 : prev.countP (fun s => s.chassi == r.chassi && keyLtB s r) =
            prev.countP (fun s => s.chassi == r.chassi) := by
          apply List.countP_congr
          intro s hsp
          have := hsep s hsp r (List.mem_cons_self r l)
          simp [this]
        have h2 : (r :: l).countP (fun s => s.chassi == r.chassi && keyLtB s r) = 0 := by
          rw [List.countP_eq_zero]
          intro s hsl
          rcases List.mem_cons.mp hsl with rfl | hsl
          · simp [keyLtB_irrefl]
          · have hlt := hr s hsl
            simp [keyLtB_asymm hlt]
        omega
      have hstep : withOrdAux (prev ++ [r]) l =
          l.map (fun x => (x, (prev ++ r :: l).countP
            (fun s => s.chassi == x.chassi && keyLtB s x))) := by
        have hsep' : ∀ s ∈ prev ++ [r], ∀ x ∈ l, keyLtB s x = true := by
          intro s hsp x hx
          rcases List.mem_append.mp hsp with hsp | hsp
          · exact hsep s hsp x (List.mem_cons_of_mem r hx)
          · have := List.mem_singleton.mp hsp
            subst this
            exact hr x hx
        have happ : (prev ++ [r]) ++ l = prev ++ r :: l := by simp
        rw [ih (prev ++ [r]) hsep' hl, happ]
      simp only [withOrdAux, List.map_cons]
      rw [hstep, hcount]

theorem classify_eq (rows : List RawRow) :
    classify rows = (sortedRecs rows).map
      (fun r => (r, decide (1 ≤ ordCount rows r))) := by
  unfold classify
  rw [withOrdAux_eq (sortedRecs rows) [] (by intro s hs x hx; simp at hs)
    (sortedRecs_strict rows)]
  rw [List.map_map]
  apply List.map_congr_left
  intro r hr
  simp only [Function.comp_apply, List.nil_append]
  have hp : (sortedRecs rows).countP (fun s => s.chassi == r.chassi && keyLtB s r) =
      ordCount rows r :=
    (insSort_perm _).countP_eq _
  rw [hp]

/-! ### Minima of chassi groups -/

theorem exists_keyMin (l : List Rec) (hne : l ≠ []) :
    ∃ m ∈ l, ∀ s ∈ l, keyLtB s m = false := by
  induction l with
  | nil => exact absurd rfl hne
  | cons r l ih =>
      rcases eq_or_ne l [] with rfl | hl
      · refine ⟨r, List.mem_cons_self r [], ?_⟩
        intro s hs
        have := List.mem_singleton.mp hs
        subst this
        exact keyLtB_irrefl s
      · obtain ⟨m, hm, hmin⟩ := ih hl
        by_cases hrm : keyLtB r m = true
        · refine ⟨r, List.mem_cons_self r l, ?_⟩
          intro s hs
          rcases List.mem_cons.mp hs with rfl | hs
          · exact keyLtB_irrefl s
          · by_contra hc
            rw [Bool.not_eq_false] at hc
            have : keyLtB s m = true := keyLtB_trans hc hrm
            rw [hmin s hs] at this
            exact Bool.false_ne_true this
        · refine ⟨m, List.mem_cons_of_mem r hm, ?_⟩
          intro s hs
          rcases List.mem_cons.mp hs with rfl | hs
          · simpa using hrm
          · exact hmin s hs

theorem countP_eq_one_of_unique {l : List Rec} {p : Rec → Bool} {m : Rec}
    (hnd : l.Nodup) (hm : m ∈ l) (hpm : p m = true)
    (huniq : ∀ x ∈ l, p x = true → x = m) : l.countP p = 1 := by
  induction l with
  | nil => simp at hm
  | cons r l ih =>
      obtain ⟨hr, hl⟩ := List.nodup_cons.mp hnd
      rcases List.mem_cons.mp hm with rfl | hm
      · have hcnt : l.countP p = 0 := by
          rw [List.countP_eq_zero]
          intro x hx hpx
          have := huniq x (List.mem_cons_of_mem _ hx) hpx
          subst this
          exact hr hx
        simp [List.countP_cons, hcnt, hpm]
      · have hpr : p r = false := by
          by_contra hc
          rw [Bool.not_eq_false] at hc
          have := huniq r (List.mem_cons_self _ _) hc
          subst this
          exact absurd hm hr
        rw [List.countP_cons, hpr]
        simpa using ih hl hm (fun x hx hpx => huniq x (List.mem_cons_of_mem _ hx) hpx)

theorem recs_nodup (rows : List RawRow) : (attachIdx (rows.map normalizeRow)).Nodup :=
  (attachIdx_idx_nodup (rows.map normalizeRow)).imp (fun h he => h (congrArg Rec.idx he))

theorem recs_idx_inj {rows : List RawRow} {a b : Rec}
    (ha : a ∈ attachIdx (rows.map normalizeRow))
    (hb : b ∈ attachIdx (rows.map normalizeRow))
    (hidx : a.idx = b.idx) : a = b := by
  by_contra hne
  exact (attachIdx_idx_nodup (rows.map normalizeRow)).forall
    (fun _ _ h => Ne.symm h) ha hb hne hidx

theorem mem_classify {rows : List RawRow} {p : Rec × Bool} (hp : p ∈ classify rows) :
    p.1 ∈ attachIdx (rows.map normalizeRow) ∧ p.2 = decide (1 ≤ ordCount rows p.1) := by
  rw [classify_eq] at hp
  obtain ⟨r, hr, he⟩ := List.mem_map.mp hp
  cases he
  exact ⟨(insSort_perm _).subset hr, rfl⟩

theorem ord_zero_min {rows : List RawRow} {c : String} {r : Rec}
    (hc : r.chassi = c) (h0 : ordCount rows r = 0) :
    ∀ s ∈ attachIdx (rows.map normalizeRow), s.chassi = c → keyLtB s r = false := by
  intro s hs hsc
  have := List.countP_eq_zero.mp h0 s hs
  simp only [hc, hsc, beq_self_eq_true, Bool.true_and, Bool.and_eq_true,
    beq_iff_eq, not_and, Bool.not_eq_true] at this
  exact this

theorem ord_zero_of_min {rows : List RawRow} {c : String} {r : Rec}
    (hc : r.chassi = c)
    (hmin : ∀ s ∈ attachIdx (rows.map normalizeRow), s.chassi = c → keyLtB s r = false) :
    ordCount rows r = 0 := by
  rw [ordCount, List.countP_eq_zero]
  intro s hs
  simp only [Bool.and_eq_true, beq_iff_eq, not_and]
  intro hsc
  rw [hc] at hsc
  rw [hmin s hs hsc]
  exact Bool.false_ne_true

theorem classify_countFalse_eq_one (rows : List RawRow) (c : String)
    (hex : ∃ r ∈ attachIdx (rows.map normalizeRow), r.chassi = c) :
    (classify rows).countP (fun p => p.1.chassi == c && !p.2) = 1 := by
  obtain ⟨r0, hr0, hc0⟩ := hex
  rw [classify_eq, List.countP_map]
  simp only [sortedRecs]
  rw [(insSort_perm (attachIdx (rows.map normalizeRow))).countP_eq]
  have hG : r0 ∈ (attachIdx (rows.map normalizeRow)).filter (fun s => s.chassi == c) := by
    rw [List.mem_filter]
    exact ⟨hr0, by simp [hc0]⟩
  obtain ⟨m, hmG, hmin⟩ := exists_keyMin _ (List.ne_nil_of_mem hG)
  obtain ⟨hmrecs, hmc⟩ := List.mem_filter.mp hmG
  have hmc' : m.chassi = c := by simpa using hmc
  have hminrec : ∀ s ∈ attachIdx (rows.map normalizeRow), s.chassi = c →
      keyLtB s m = false := by
    intro s hs hsc
    exact hmin s (List.mem_filter.mpr ⟨hs, by simp [hsc]⟩)
  apply countP_eq_one_of_unique (recs_nodup rows) hmrecs
  · simp only [Function.comp_apply, Bool.and_eq_true, beq_iff_eq]
    refine ⟨hmc', ?_⟩
    rw [ord_zero_of_min hmc' hminrec]
    rfl
  · intro x hx hpx
    simp only [Function.comp_apply, Bool.and_eq_true, beq_iff_eq] at hpx
    have hxc : x.chassi = c := hpx.1
    have hx0 : ordCount rows x = 0 := by
      have h2 := hpx.2
      simp only [Bool.not_eq_true', decide_eq_false_iff_not, Nat.not_le,
        Nat.lt_one_iff] at h2
      exact h2
    have hxmin := ord_zero_min hxc hx0
    by_cases hidx : x.idx = m.idx
    · exact recs_idx_inj hx hmrecs hidx
    · rcases keyLtB_connex hidx with h | h
      · rw [hminrec x hx hxc] at h
        exact absurd h Bool.false_ne_true
      · rw [hxmin m hmrecs hmc'] at h
        exact absurd h Bool.false_ne_true

/-! ### Claims C1 and C10 -/

/-- Concrete frame for the C1 counterexample: the first occurrence of chassi
"A" carries a banned unit. -/
def c1rowsX : List RawRow :=
  [⟨some "CODIGO", some 1, some "A", some "J", none⟩,
   ⟨some "POSTO X", some 2, some "A", some "J", none⟩]

/-- C1 (counterexample): in the normalized output, chassi "A" is present but
no record of it has `isReinspection = false` — its first occurrence carried a
banned unit, and the banned-unit filter (line 330) runs after the
classification (lines 324–326), dropping the one record that had been marked
`IS_REV = 0`.  So it is not the case that exactly one record of every present
vehicle id in the normalized output has `isReinspection = false`. -/
theorem claim_C1_counterexample :
    (pipeline c1rowsX).countP (fun p => p.1.chassi == "A") = 1 ∧
    (pipeline c1rowsX).countP (fun p => p.1.chassi == "A" && !p.2) = 0 := by
  decide

/-- C1 (amended): immediately after the re-inspection classification
(lines 324–326) every vehicle id present in the frame has exactly one record
with `isReinspection = false`, namely the unique record of its chassi group
that is least in the sort key — earliest by date with null dates last, ties
broken by original insertion order.  The banned-unit filter of line 330 runs
only afterwards and may drop that record, so in the normalized output each
vehicle id has at most one record with `isReinspection = false`. -/
theorem claim_C1_amended (rows : List RawRow) (c : String)
    (hex : ∃ p ∈ classify rows, p.1.chassi = c) :
    (classify rows).countP (fun p => p.1.chassi == c && !p.2) = 1 ∧
    (pipeline rows).countP (fun p => p.1.chassi == c && !p.2) ≤ 1 ∧
    (∀ p ∈ classify rows, p.1.chassi = c → p.2 = false →
      ∀ q ∈ classify rows, q.1.chassi = c → q.1 ≠ p.1 → keyLtB p.1 q.1 = true) := by
  obtain ⟨p0, hp0, hc0⟩ := hex
  have hex' : ∃ r ∈ attachIdx (rows.map normalizeRow), r.chassi = c :=
    ⟨p0.1, (mem_classify hp0).1, hc0⟩
  have h1 := classify_countFalse_eq_one rows c hex'
  refine ⟨h1, ?_, ?_⟩
  · calc (pipeline rows).countP (fun p => p.1.chassi == c && !p.2)
        ≤ (classify rows).countP (fun p => p.1.chassi == c && !p.2) :=
          (List.filter_sublist _).countP_le _
      _ = 1 := h1
  · intro p hp hpc hpfalse q hq hqc hqne
    obtain ⟨hprec, hpb⟩ := mem_classify hp
    obtain ⟨hqrec, _⟩ := mem_classify hq
    have hp0' : ordCount rows p.1 = 0 := by
      rw [hpfalse] at hpb
      simp only [Bool.false_eq, decide_eq_false_iff_not, Nat.not_le,
        Nat.lt_one_iff] at hpb
      exact hpb.symm ▸ hpb
    have hpmin := ord_zero_min hpc hp0'
    have hidx : q.1.idx ≠ p.1.idx := by
      intro h
      exact hqne (recs_idx_inj hqrec hprec h)
    rcases keyLtB_connex hidx with h | h
    · rw [hpmin q.1 hqrec hqc] at h
      exact absurd h Bool.false_ne_true
    · exact h

/-- Concrete frame for the C1 witness. -/
def c1rowsW : List RawRow :=
  [⟨some "U1", some 3, some "A", some "J", none⟩,
   ⟨some "U1", some 1, some "A", some "J", none⟩,
   ⟨some "U2", some 2, some "B", some "M", none⟩]

theorem claim_C1_witness :
    (∃ p ∈ classify c1rowsW, p.1.chassi = "A") ∧
    ((classify c1rowsW).countP (fun p => p.1.chassi == "A" && !p.2) = 1 ∧
     (pipeline c1rowsW).countP (fun p => p.1.chassi == "A" && !p.2) ≤ 1 ∧
     (∀ p ∈ classify c1rowsW, p.1.chassi = "A" → p.2 = false →
       ∀ q ∈ classify c1rowsW, q.1.chassi = "A" → q.1 ≠ p.1 →
         keyLtB p.1 q.1 = true)) :=
  ⟨by decide, claim_C1_amended c1rowsW "A" (by decide)⟩

/-- C10: in the stable sort by (date, vehicle id), records with null
(unparseable) dates are placed after all dated records; consequently every
null-dated record whose vehicle id also has a dated record is classified as a
re-inspection. -/
theorem claim_C10 (rows : List RawRow) :
    ((sortedRecs rows).Pairwise (fun a b => a.data = none → b.data = none)) ∧
    (∀ p ∈ classify rows, ∀ q ∈ classify rows, p.1.chassi = q.1.chassi →
      p.1.data ≠ none → q.1.data = none → q.2 = true) := by
  constructor
  · refine (sortedRecs_strict rows).imp ?_
    intro a b hab hnone
    rcases keyLtB_iff.mp hab with hd | ⟨hd, _⟩
    · rw [hnone] at hd
      simp [dLtB] at hd
    · rw [hnone] at hd
      exact hd.symm
  · intro p hp q hq hch hpd hqd
    obtain ⟨hprec, _⟩ := mem_classify hp
    obtain ⟨hqrec, hqb⟩ := mem_classify hq
    obtain ⟨d, hd⟩ := Option.ne_none_iff_exists'.mp hpd
    have hlt : keyLtB p.1 q.1 = true := by
      apply keyLtB_iff.mpr
      left
      rw [hd, hqd]
      rfl
    have hpos : 0 < ordCount rows q.1 := by
      rw [ordCount]
      apply List.countP_pos_iff.mpr
      refine ⟨p.1, hprec, ?_⟩
      simp [hch, hlt]
    rw [hqb]
    exact decide_eq_true (by omega)

/-- Concrete frame for the C10 witness: a null-dated and a dated record of
the same chassi. -/
def c10rowsW : List RawRow :=
  [⟨some "U", none, some "A", some "J", none⟩,
   ⟨some "U", some 4, some "A", some "J", none⟩]

theorem claim_C10_witness :
    ((⟨1, "U", "A", some 4, "J"⟩, false) ∈ classify c10rowsW ∧
     (⟨0, "U", "A", none, "J"⟩, true) ∈ classify c10rowsW ∧
     ("A" : String) = "A" ∧ (some 4 : Option Nat) ≠ none ∧
     (none : Option Nat) = none) ∧
    ((⟨0, "U", "A", none, "J"⟩, true) : Rec × Bool).2 = true :=
  ⟨by decide,
    (claim_C10 c10rowsW).2 (⟨1, "U", "A", some 4, "J"⟩, false) (by decide)
      (⟨0, "U", "A", none, "J"⟩, true) (by decide) (by decide) (by decide)
      (by decide)⟩

/-! ### Claims C5 and C6 -/

theorem char_toNat_ofNat_small (n : Nat) (h : n < 55296) :
    (Char.ofNat n).toNat = n := by
  rw [Char.ofNat, dif_pos (Or.inl h)]
  simp [Char.ofNatAux, Char.toNat, UInt32.toNat]

theorem pySpace_ge_65 (d : Char) (hd : 65 ≤ d.toNat) : pySpace d = false := by
  simp only [pySpace, Bool.or_eq_false_iff, beq_eq_false_iff_ne, ne_eq]
  omega

theorem pySpace_toUpper (c : Char) : pySpace (Char.toUpper c) = pySpace c := by
  have hdef : Char.toUpper c =
      if c.toNat ≥ 97 ∧ c.toNat ≤ 122 then Char.ofNat (c.toNat - 32) else c := rfl
  rw [hdef]
  by_cases h : c.toNat ≥ 97 ∧ c.toNat ≤ 122
  · rw [if_pos h]
    have h1 : (Char.ofNat (Char.toNat c - 32)).toNat = Char.toNat c - 32 :=
      char_toNat_ofNat_small _ (by omega)
    rw [pySpace_ge_65 _ (by omega), pySpace_ge_65 _ (by omega)]
  · rw [if_neg h]

theorem string_mk_eq_empty_iff (l : List Char) : String.mk l = "" ↔ l = [] := by
  constructor
  · intro h
    have := congrArg String.data h
    simpa using this
  · rintro rfl
    rfl

theorem pyStrip_eq_empty_iff (s : String) :
    pyStrip s = "" ↔ ∀ c ∈ s.data, pySpace c = true := by
  rw [pyStrip, string_mk_eq_empty_iff, List.reverse_eq_nil_iff,
    List.dropWhile_eq_nil_iff]
  constructor
  · intro h c hc
    rw [← List.takeWhile_append_dropWhile (p := pySpace) (l := s.data)] at hc
    rcases List.mem_append.mp hc with hc | hc
    · exact List.mem_takeWhile_imp hc
    · exact h c (List.mem_reverse.mpr hc)
  · intro h x hx
    exact h x ((List.dropWhile_sublist _).subset (List.mem_reverse.mp hx))

theorem pyStrip_pyUpper_empty_iff (s : String) :
    pyStrip (pyUpper s) = "" ↔ pyStrip s = "" := by
  rw [pyStrip_eq_empty_iff, pyStrip_eq_empty_iff]
  constructor
  · intro h c hc
    rw [← pySpace_toUpper]
    exact h _ (List.mem_map_of_mem Char.toUpper hc)
  · intro h c hc
    obtain ⟨a, ha, rfl⟩ := List.mem_map.mp hc
    rw [pySpace_toUpper]
    exact h a ha

/-- C5 (counterexample): with a missing (`NaN`) `PERITO` cell and a non-empty
`DIGITADOR`, the code derives the empty inspector: `str(NaN)` is the
non-empty string `"nan"`, so the fallback branch of line 313 is not taken,
while `_upper_strip` renders the missing value as `""`.  The claim's rule
would yield `"MARIA"`. -/
theorem claim_C5_counterexample :
    vistoriador none (some "MARIA") = "" ∧
    vistoriadorSpec none (some "MARIA") = "MARIA" ∧
    vistoriador none (some "MARIA") ≠ vistoriadorSpec none (some "MARIA") := by
  decide

/-- C5 (amended): for a present primary cell the derived inspector follows
the claimed rule — the primary value upper-cased/trimmed when it is non-empty
after trimming, the secondary value otherwise — and is non-empty whenever the
primary trims non-empty, or the primary trims empty and the secondary
upper-trims non-empty.  When the primary cell is missing (`NaN`, as after a
multi-sheet concat where one sheet lacks the column) the derived inspector is
`""` even if the secondary holds a value. -/
theorem claim_C5_amended (s : String) (d : Option String) :
    (vistoriador (some s) d =
      if pyStrip s ≠ "" then pyStrip (pyUpper s) else upperStrip d) ∧
    (vistoriador none d = "") ∧
    (pyStrip s ≠ "" → vistoriador (some s) d ≠ "") ∧
    (pyStrip s = "" → upperStrip d ≠ "" → vistoriador (some s) d ≠ "") := by
  refine ⟨rfl, ?_, ?_, ?_⟩
  · rw [vistoriador, if_pos (by decide)]
    rfl
  · intro hne
    rw [vistoriador, if_pos (show pyStrip (astypeStr (some s)) ≠ "" from hne)]
    intro h
    exact hne ((pyStrip_pyUpper_empty_iff s).mp h)
  · intro hemp hd
    rw [vistoriador, if_neg (show ¬ pyStrip (astypeStr (some s)) ≠ "" from
      fun hc => hc hemp)]
    exact hd

theorem claim_C5_witness :
    (pyStrip "joao" ≠ "") ∧
    (vistoriador (some "joao") (some "m") =
      if pyStrip "joao" ≠ "" then pyStrip (pyUpper "joao")
      else upperStrip (some "m")) ∧
    vistoriador (some "joao") (some "m") ≠ "" :=
  ⟨by decide, (claim_C5_amended "joao" (some "m")).1,
    (claim_C5_amended "joao" (some "m")).2.2.1 (by decide)⟩

/-- C6: banned-unit filtering is exhaustive — no record of the normalized
output has its (upper-cased/trimmed) unit in the banned set, and a classified
record survives into the normalized output exactly when its unit is not
banned. -/
theorem contains_iff_mem_str {l : List String} {a : String} :
    l.contains a = true ↔ a ∈ l := by
  simp [List.contains, List.elem_iff]

theorem claim_C6 (rows : List RawRow) :
    (∀ p ∈ pipeline rows, p.1.unidade ∉ BAN_UNIDS) ∧
    (∀ p ∈ classify rows, (p.1.unidade ∉ BAN_UNIDS ↔ p ∈ pipeline rows)) := by
  constructor
  · intro p hp
    have h := (List.mem_filter.mp hp).2
    simp only [Bool.not_eq_true'] at h
    intro hb
    rw [contains_iff_mem_str.mpr hb] at h
    simp at h
  · intro p hp
    constructor
    · intro hb
      refine List.mem_filter.mpr ⟨hp, ?_⟩
      simp only [Bool.not_eq_true']
      by_contra hc
      rw [Bool.not_eq_false] at hc
      exact hb (contains_iff_mem_str.mp hc)
    · intro hpipe
      have h := (List.mem_filter.mp hpipe).2
      simp only [Bool.not_eq_true'] at h
      intro hb
      rw [contains_iff_mem_str.mpr hb] at h
      simp at h

/-- Concrete frame for the C6 witness. -/
def c6rowsW : List RawRow :=
  [⟨some "POSTO CÓDIGO", some 1, some "A", some "J", none⟩,
   ⟨some "U OK", some 2, some "B", some "M", none⟩]

theorem claim_C6_witness :
    ((⟨1, "U OK", "B", some 2, "M"⟩, false) ∈ pipeline c6rowsW) ∧
    (⟨1, "U OK", "B", some 2, "M"⟩ : Rec).unidade ∉ BAN_UNIDS :=
  ⟨by decide, (claim_C6 c6rowsW).1 (⟨1, "U OK", "B", some 2, "M"⟩, false)
    (by decide)⟩

/-! ### Claims C2, C7 and C8 -/

theorem resumoCalc_META_DIA (meta du : Int) (liq dp : Nat) :
    (resumoCalc meta du liq dp).META_DIA =
      (if 0 < du then (meta : ℚ) / (du : ℚ) else 0) := rfl

theorem resumoCalc_FALTANTE (meta du : Int) (liq dp : Nat) :
    (resumoCalc meta du liq dp).FALTANTE_MES = max (meta - (liq : Int)) 0 := rfl

theorem resumoCalc_DIAS_RESTANTES (meta du : Int) (liq dp : Nat) :
    (resumoCalc meta du liq dp).DIAS_RESTANTES = max (du - (dp : Int)) 0 := rfl

theorem resumoCalc_NECESSIDADE (meta du : Int) (liq dp : Nat) :
    (resumoCalc meta du liq dp).NECESSIDADE_DIA =
      (if 0 < max (du - (dp : Int)) 0 then
        ((max (meta - (liq : Int)) 0 : Int) : ℚ) / ((max (du - (dp : Int)) 0 : Int) : ℚ)
      else 0) := rfl

theorem resumoCalc_MEDIA (meta du : Int) (liq dp : Nat) :
    (resumoCalc meta du liq dp).MEDIA_DIA_ATUAL =
      (if 0 < dp then (liq : ℚ) / (dp : ℚ) else 0) := rfl

theorem resumoCalc_PROJECAO (meta du : Int) (liq dp : Nat) :
    (resumoCalc meta du liq dp).PROJECAO_MES =
      ((roundHalfEven ((liq : ℚ) +
        (resumoCalc meta du liq dp).MEDIA_DIA_ATUAL *
          ((resumoCalc meta du liq dp).DIAS_RESTANTES : Int) : ℚ) : Int) : ℚ) := rfl

theorem resumoCalc_TENDENCIA (meta du : Int) (liq dp : Nat) :
    (resumoCalc meta du liq dp).TENDENCIA_PCT =
      (if 0 < meta then
        some ((resumoCalc meta du liq dp).PROJECAO_MES / (meta : ℚ) * 100)
      else none) := rfl

theorem roundHalfEven_intCast (n : Int) : roundHalfEven ((n : ℚ)) = n := by
  unfold roundHalfEven
  rw [Int.floor_intCast, sub_self, if_pos (by norm_num)]

/-- C2 (counterexample): with `workdaysInMonth = -1` — reachable, since the
goal coercion performs no clamping — and `monthlyGoal = 1`, the code's
`META_DIA` is 0, while the claimed formula, zero only when workdaysInMonth is
exactly 0, gives `1/(-1) = -1 ≠ 0`. -/
theorem claim_C2_counterexample :
    metaCoerce (.num (-1)) = -1 ∧
    (resumoCalc 1 (-1) 0 0).META_DIA = 0 ∧
    (1 : ℚ) / ((-1 : Int) : ℚ) ≠ 0 := by
  refine ⟨by decide, rfl, by norm_num⟩

/-- C2 (amended): the derived metrics of lines 526–541 satisfy the claimed
formulas with one correction: the dailyGoal guard is `workdaysInMonth > 0`
(a negative workdays value, which the goal coercion does not rule out, also
yields 0), not only `workdaysInMonth = 0`.  All other formulas hold as
claimed — shortfall, remaining workdays, required daily rate, current daily
average, projected month end — and the projection equals net whenever
workdaysElapsed is 0. -/
theorem claim_C2_amended (meta du : Int) (liq dp : Nat) :
    (0 < du → (resumoCalc meta du liq dp).META_DIA = (meta : ℚ) / (du : ℚ)) ∧
    (du ≤ 0 → (resumoCalc meta du liq dp).META_DIA = 0) ∧
    ((resumoCalc meta du liq dp).FALTANTE_MES = max (meta - (liq : Int)) 0) ∧
    ((resumoCalc meta du liq dp).DIAS_RESTANTES = max (du - (dp : Int)) 0) ∧
    ((resumoCalc meta du liq dp).DIAS_RESTANTES ≠ 0 →
      (resumoCalc meta du liq dp).NECESSIDADE_DIA =
        ((resumoCalc meta du liq dp).FALTANTE_MES : ℚ) /
          ((resumoCalc meta du liq dp).DIAS_RESTANTES : ℚ)) ∧
    ((resumoCalc meta du liq dp).DIAS_RESTANTES = 0 →
      (resumoCalc meta du liq dp).NECESSIDADE_DIA = 0) ∧
    (dp ≠ 0 → (resumoCalc meta du liq dp).MEDIA_DIA_ATUAL = (liq : ℚ) / (dp : ℚ)) ∧
    (dp = 0 → (resumoCalc meta du liq dp).MEDIA_DIA_ATUAL = 0) ∧
    ((resumoCalc meta du liq dp).PROJECAO_MES =
      ((roundHalfEven ((liq : ℚ) +
        (resumoCalc meta du liq dp).MEDIA_DIA_ATUAL *
          ((resumoCalc meta du liq dp).DIAS_RESTANTES : Int) : ℚ) : Int) : ℚ)) ∧
    (dp = 0 → (resumoCalc meta du liq dp).PROJECAO_MES = (liq : ℚ)) := by
  refine ⟨?_, ?_, resumoCalc_FALTANTE meta du liq dp,
    resumoCalc_DIAS_RESTANTES meta du liq dp, ?_, ?_, ?_, ?_,
    resumoCalc_PROJECAO meta du liq dp, ?_⟩
  · intro h
    rw [resumoCalc_META_DIA, if_pos h]
  · intro h
    rw [resumoCalc_META_DIA, if_neg (by omega)]
  · intro h
    rw [resumoCalc_DIAS_RESTANTES] at h
    rw [resumoCalc_NECESSIDADE, if_pos (by omega), resumoCalc_FALTANTE,
      resumoCalc_DIAS_RESTANTES]
  · intro h
    rw [resumoCalc_DIAS_RESTANTES] at h
    rw [resumoCalc_NECESSIDADE, if_neg (by omega)]
  · intro h
    rw [resumoCalc_MEDIA, if_pos (by omega)]
  · intro h
    rw [resumoCalc_MEDIA, if_neg (by omega)]
  · intro h
    rw [resumoCalc_PROJECAO, resumoCalc_MEDIA, if_neg (by omega), zero_mul,
      add_zero]
    rw [show ((liq : ℚ)) = (((liq : Int) : ℚ)) by push_cast; ring]
    rw [roundHalfEven_intCast]

theorem claim_C2_witness :
    ((0 : Int) < 20 ∧ (10 : Nat) ≠ 0 ∧ (0 : Nat) = 0) ∧
    ((resumoCalc 20 20 10 10).META_DIA = (20 : ℚ) / (20 : ℚ) ∧
     (resumoCalc 20 20 10 10).MEDIA_DIA_ATUAL = (10 : ℚ) / (10 : ℚ) ∧
     (resumoCalc 20 20 10 0).PROJECAO_MES = ((10 : Nat) : ℚ)) :=
  ⟨⟨by decide, by decide, rfl⟩,
   ⟨(claim_C2_amended 20 20 10 10).1 (by decide),
    (claim_C2_amended 20 20 10 10).2.2.2.2.2.2.1 (by decide),
    (claim_C2_amended 20 20 10 0).2.2.2.2.2.2.2.2.2 rfl⟩⟩

/-- C7 (counterexample): a monthly goal of −1 — reachable, since the goal
coercion performs no clamping — yields a null `TENDENCIA_%` even though the
goal differs from 0, refuting the claimed "null iff monthlyGoal = 0". -/
theorem claim_C7_counterexample :
    metaCoerce (.num (-1)) = -1 ∧
    (resumoCalc (-1) 0 5 0).TENDENCIA_PCT = none ∧
    (-1 : Int) ≠ 0 := by
  refine ⟨by decide, rfl, by decide⟩

/-- C7 (amended): `TENDENCIA_%` is null iff `monthlyGoal ≤ 0` — the guard of
line 541 is `META_MENSAL > 0`, not `≠ 0`; under the data model's intended
non-negativity this is null iff `monthlyGoal = 0`, and for a positive goal it
equals `(projectedMonthEnd / monthlyGoal) * 100`. -/
theorem claim_C7_amended (meta du : Int) (liq dp : Nat) :
    ((resumoCalc meta du liq dp).TENDENCIA_PCT = none ↔ meta ≤ 0) ∧
    (0 ≤ meta → ((resumoCalc meta du liq dp).TENDENCIA_PCT = none ↔ meta = 0)) ∧
    (0 < meta → (resumoCalc meta du liq dp).TENDENCIA_PCT =
      some ((resumoCalc meta du liq dp).PROJECAO_MES / (meta : ℚ) * 100)) := by
  by_cases h : 0 < meta
  · rw [resumoCalc_TENDENCIA, if_pos h]
    refine ⟨?_, ?_, fun _ => rfl⟩
    · constructor
      · intro hx
        exact absurd hx (Option.some_ne_none _)
      · intro hx
        omega
    · intro hge
      constructor
      · intro hx
        exact absurd hx (Option.some_ne_none _)
      · intro hx
        omega
  · rw [resumoCalc_TENDENCIA, if_neg h]
    refine ⟨?_, ?_, fun hc => absurd hc h⟩
    · constructor
      · intro _
        omega
      · intro _
        rfl
    · intro hge
      constructor
      · intro _
        omega
      · intro _
        rfl

theorem claim_C7_witness :
    ((0 : Int) ≤ 20 ∧ (0 : Int) < 20) ∧
    (((resumoCalc 20 20 10 10).TENDENCIA_PCT = none ↔ (20 : Int) = 0) ∧
     (resumoCalc 20 20 10 10).TENDENCIA_PCT =
       some ((resumoCalc 20 20 10 10).PROJECAO_MES / (20 : ℚ) * 100)) :=
  ⟨⟨by decide, by decide⟩,
   ⟨(claim_C7_amended 20 20 10 10).2.1 (by decide),
    (claim_C7_amended 20 20 10 10).2.2 (by decide)⟩⟩

/-- C8 (counterexample): the goal normalizer performs no non-negativity
clamp — a numeric cell holding −5 is coerced to the integer −5, violating the
claimed `monthlyGoal ≥ 0` invariant. -/
theorem claim_C8_counterexample :
    metaCoerce (.num (-5)) = -5 ∧ ¬ (0 ≤ metaCoerce (.num (-5))) := by
  decide

/-- C8 (amended): `pd.to_numeric(..., errors="coerce").fillna(0).astype(int)`
maps non-numeric cells to 0 and numeric cells to their integer truncation
toward zero — integers are kept as-is — but it does not clamp, so the result
is non-negative exactly for non-negative inputs; negative numeric cells yield
negative goals. -/
theorem claim_C8_amended :
    metaCoerce .nonNumeric = 0 ∧
    (∀ n : Int, metaCoerce (.num ((n : ℚ))) = n) ∧
    (∀ q : ℚ, 0 ≤ q → 0 ≤ metaCoerce (.num q) ∧
      metaCoerce (.num q) = Int.floor q) ∧
    (∀ q : ℚ, q < 0 → metaCoerce (.num q) ≤ 0) := by
  refine ⟨by decide, ?_, ?_, ?_⟩
  · intro n
    by_cases h : (0 : ℚ) ≤ (n : ℚ)
    · rw [metaCoerce, toNumericFilled, pyAstypeInt, if_pos h, Int.floor_intCast]
    · rw [metaCoerce, toNumericFilled, pyAstypeInt, if_neg h]
      rw [show (-((n : ℚ))) = (((-n : Int) : ℚ)) by push_cast; ring]
      rw [Int.floor_intCast]
      omega
  · intro q hq
    rw [metaCoerce, toNumericFilled, pyAstypeInt, if_pos hq]
    exact ⟨Int.floor_nonneg.mpr hq, rfl⟩
  · intro q hq
    rw [metaCoerce, toNumericFilled, pyAstypeInt, if_neg (by exact not_le.mpr hq)]
    have : 0 ≤ Int.floor (-q) := Int.floor_nonneg.mpr (by linarith)
    omega

theorem claim_C8_witness :
    ((0 : ℚ) ≤ 5 ∧ (-2 : ℚ) < 0) ∧
    (0 ≤ metaCoerce (.num 5) ∧ metaCoerce (.num 5) = Int.floor (5 : ℚ) ∧
     metaCoerce (.num (-2)) ≤ 0) :=
  ⟨⟨by decide, by decide⟩,
   ⟨(claim_C8_amended.2.2.1 5 (by decide)).1,
    (claim_C8_amended.2.2.1 5 (by decide)).2,
    claim_C8_amended.2.2.2 (-2) (by decide)⟩⟩

/-! ### Claims C3 and C4: the goal join -/

theorem leftMerge_cons (g : String) (grp : List String) (metas : List MetaRow) :
    leftMerge (g :: grp) metas =
      (if (metas.filter (fun m => m.vist == g)).isEmpty then [(g, none)]
       else (metas.filter (fun m => m.vist == g)).map (fun m => (g, some m))) ++
      leftMerge grp metas := by
  simp only [leftMerge, List.flatMap_cons]

theorem block_fst {g : String} {metas : List MetaRow} {p : String × Option MetaRow}
    (hp : p ∈ (if (metas.filter (fun m => m.vist == g)).isEmpty then [(g, none)]
      else (metas.filter (fun m => m.vist == g)).map (fun m => (g, some m)))) :
    p.1 = g := by
  by_cases hemp : (metas.filter (fun m => m.vist == g)).isEmpty = true
  · rw [if_pos hemp] at hp
    have := List.mem_singleton.mp hp
    subst this
    rfl
  · rw [if_neg hemp] at hp
    obtain ⟨m, _, he⟩ := List.mem_map.mp hp
    cases he
    rfl

theorem leftMerge_sound {grp : List String} {metas : List MetaRow}
    {p : String × Option MetaRow} (hp : p ∈ leftMerge grp metas) :
    p.1 ∈ grp ∧ (p.2 = none ∨ ∃ m ∈ metas, p.2 = some m ∧ m.vist = p.1) := by
  obtain ⟨g, hg, hpg⟩ := List.mem_flatMap.mp hp
  have hpg' : p ∈ (if (metas.filter (fun m => m.vist == g)).isEmpty then
      [(g, (none : Option MetaRow))]
    else (metas.filter (fun m => m.vist == g)).map (fun m => (g, some m))) := hpg
  have hfst : p.1 = g := block_fst hpg'
  refine ⟨hfst ▸ hg, ?_⟩
  by_cases hemp : (metas.filter (fun m => m.vist == g)).isEmpty = true
  · rw [if_pos hemp] at hpg'
    have := List.mem_singleton.mp hpg'
    subst this
    exact Or.inl rfl
  · rw [if_neg hemp] at hpg'
    obtain ⟨m, hm, he⟩ := List.mem_map.mp hpg'
    obtain ⟨hm1, hm2⟩ := List.mem_filter.mp hm
    cases he
    exact Or.inr ⟨m, hm1, rfl, by simpa using hm2⟩

theorem leftMerge_has_some {grp : List String} {metas : List MetaRow} {g : String}
    (hg : g ∈ grp) : ∀ m ∈ metas, m.vist = g → (g, some m) ∈ leftMerge grp metas := by
  intro m hm hmg
  apply List.mem_flatMap.mpr
  refine ⟨g, hg, ?_⟩
  have hmf : m ∈ metas.filter (fun m => m.vist == g) :=
    List.mem_filter.mpr ⟨hm, by simp [hmg]⟩
  have hemp : (metas.filter (fun m => m.vist == g)).isEmpty = false := by
    rcases h : (metas.filter (fun m => m.vist == g)) with _ | ⟨a, l⟩
    · rw [h] at hmf
      simp at hmf
    · rw [h]
      rfl
  show (g, some m) ∈ (if (metas.filter (fun m => m.vist == g)).isEmpty then
      [(g, (none : Option MetaRow))]
    else (metas.filter (fun m => m.vist == g)).map (fun m => (g, some m)))
  rw [hemp]
  simp only [Bool.false_eq_true, if_false]
  exact List.mem_map.mpr ⟨m, hmf, rfl⟩

theorem leftMerge_has_none {grp : List String} {metas : List MetaRow} {g : String}
    (hg : g ∈ grp) (hz : metas.countP (fun m => m.vist == g) = 0) :
    (g, none) ∈ leftMerge grp metas := by
  apply List.mem_flatMap.mpr
  refine ⟨g, hg, ?_⟩
  have hfil : metas.filter (fun m => m.vist == g) = [] := by
    rw [← List.length_eq_zero]
    rw [← List.countP_eq_length_filter]
    exact hz
  show (g, (none : Option MetaRow)) ∈ (if (metas.filter (fun m => m.vist == g)).isEmpty then
      [(g, (none : Option MetaRow))]
    else (metas.filter (fun m => m.vist == g)).map (fun m => (g, some m)))
  rw [hfil]
  simp

theorem countP_leftMerge (metas : List MetaRow) (v : String) :
    ∀ grp : List String, grp.Nodup → v ∈ grp →
    (leftMerge grp metas).countP (fun p => p.1 == v) =
      max 1 (metas.countP (fun m => m.vist == v)) := by
  intro grp
  induction grp with
  | nil =>
      intro _ hv
      simp at hv
  | cons g grp ih =>
      intro hnd hv
      obtain ⟨hg, hnd'⟩ := List.nodup_cons.mp hnd
      rw [leftMerge_cons, List.countP_append]
      rcases List.mem_cons.mp hv with rfl | hv
      · have htail : (leftMerge grp metas).countP (fun p => p.1 == v) = 0 := by
          rw [List.countP_eq_zero]
          intro p hp hpv
          have h1 := (leftMerge_sound hp).1
          rw [show p.1 = v from by simpa using hpv] at h1
          exact hg h1
        rw [htail]
        by_cases hemp : (metas.filter (fun m => m.vist == v)).isEmpty = true
        · rw [if_pos hemp]
          have hz : metas.countP (fun m => m.vist == v) = 0 := by
            rw [List.countP_eq_length_filter]
            rw [List.isEmpty_iff] at hemp
            rw [hemp]
            rfl
          rw [hz]
          simp
        · rw [if_neg hemp]
          have hlen : ((metas.filter (fun m => m.vist == v)).map
              (fun m => (v, some m))).countP (fun p => p.1 == v) =
              (metas.filter (fun m => m.vist == v)).length := by
            rw [List.countP_map]
            have hcongr : (metas.filter (fun m => m.vist == v)).countP
                ((fun p : String × Option MetaRow => p.1 == v) ∘
                  (fun m => (v, some m))) =
                (metas.filter (fun m => m.vist == v)).countP (fun _ => true) :=
              List.countP_congr (by intro m hm; simp)
            rw [hcongr, List.countP_true]
          rw [hlen]
          have hpos : 0 < (metas.filter (fun m => m.vist == v)).length := by
            rcases h : (metas.filter (fun m => m.vist == v)) with _ | ⟨a, l⟩
            · rw [h] at hemp
              exact absurd rfl hemp
            · rw [h]
              simp
          have hcnt : metas.countP (fun m => m.vist == v) =
              (metas.filter (fun m => m.vist == v)).length :=
            List.countP_eq_length_filter _ _
          rw [hcnt]
          omega
      · have hvg : v ≠ g := fun he => hg (he ▸ hv)
        have hhead : (if (metas.filter (fun m => m.vist == g)).isEmpty then
            [(g, (none : Option MetaRow))]
          else (metas.filter (fun m => m.vist == g)).map
            (fun m => (g, some m))).countP (fun p => p.1 == v) = 0 := by
          rw [List.countP_eq_zero]
          intro p hp hpv
          have hbf := block_fst hp
          rw [hbf] at hpv
          have hgv : g = v := by simpa using hpv
          exact hvg hgv.symm
        rw [hhead, ih hnd' hv]
        omega

/-- Concrete inputs for the C4 counterexample: one inspector, two goal rows
for that inspector. -/
def c4view : List Rec := [⟨0, "U", "X", some 1, "A"⟩]

def c4metas : List MetaRow := [⟨"A", "FIXO", 10, 20, 5⟩, ⟨"A", "FIXO", 20, 20, 6⟩]

/-- C4 (counterexample): with two goal rows for inspector "A", the resumo
table holds two rows for "A" (with different goal values) — the pandas left
merge multiplies rows instead of applying last-merge-wins, so an inspector
does not contribute exactly one row regardless of duplicate goal rows. -/
theorem claim_C4_counterexample :
    (resumoJoin c4view c4metas).countP (fun p => p.1 == "A") = 2 ∧
    (resumoJoin c4view c4metas).map (fun p => metaFill p.2) =
      [⟨"FIXO", 10, 20⟩, ⟨"FIXO", 20, 20⟩] := by
  decide

/-- C4 (amended): duplicate goal rows are not collapsed — no last-merge-wins
occurs.  Each inspector of the view contributes `max 1 k` rows to the resumo
table, where `k` is the number of normalized goal rows matching the
inspector's name; an inspector with two or more matching goal rows appears
that many times. -/
theorem claim_C4_amended (view : List Rec) (metas : List MetaRow) (v : String)
    (hv : v ∈ grpVists view) :
    (resumoJoin view metas).countP (fun p => p.1 == v) =
      max 1 ((metas.map normMeta).countP (fun m => m.vist == v)) :=
  countP_leftMerge (metas.map normMeta) v (grpVists view) (List.nodup_dedup _) hv

/-- Concrete inputs for the C4 witness. -/
def c4viewW : List Rec := [⟨0, "U", "X", some 1, "B"⟩]

def c4metasW : List MetaRow := [⟨"B", "FIXO", 7, 20, 5⟩]

theorem claim_C4_witness :
    ("B" ∈ grpVists c4viewW) ∧
    (resumoJoin c4viewW c4metasW).countP (fun p => p.1 == "B") =
      max 1 ((c4metasW.map normMeta).countP (fun m => m.vist == "B")) :=
  ⟨by decide, claim_C4_amended c4viewW c4metasW "B" (by decide)⟩

/-- Concrete inputs for the C3 counterexample: inspector "A" has view records
only in month 5 (day 160), but goal rows for months 6 and 5. -/
def c3view : List Rec := [⟨0, "U", "X", some 160, "A"⟩]

def c3metaMay : MetaRow := ⟨"A", "FIXO", 10, 20, 5⟩

def c3metaJune : MetaRow := ⟨"A", "FIXO", 20, 20, 6⟩

def c3metas : List MetaRow := [c3metaJune, c3metaMay]

/-- C3 (counterexample): the spec's joinGoal rule selects the goal row whose
reference month (5) is the latest month of the inspector's records in the
filtered view, but the code's merge joins every goal row whose inspector name
matches — here both the month-6 and the month-5 row, in table order — so the
joined goal is not the spec-selected one (and is not unique). -/
theorem claim_C3_counterexample :
    specJoinGoal "A" c3view c3metas = some c3metaMay ∧
    (resumoJoin c3view c3metas).map (fun p => p.2) =
      [some (normMeta c3metaJune), some (normMeta c3metaMay)] ∧
    normMeta c3metaJune ≠ c3metaMay ∧
    c3metaJune.refMonth ≠ c3metaMay.refMonth := by
  decide

/-- C3 (amended): the resumo goal join (line 512) matches goal rows to
inspectors by name only — a left merge on `VISTORIADOR` with no
reference-month selection.  Every normalized goal row whose inspector name
matches is joined (duplicates included); an inspector with no matching goal
row gets a single row with an absent goal, whose fields then default to
zero/empty (lines 514–519) rather than raising an error; and every joined
row's goal is either absent or a matching goal row. -/
theorem claim_C3_amended (view : List Rec) (metas : List MetaRow) (v : String)
    (hv : v ∈ grpVists view) :
    (∀ m ∈ metas.map normMeta, m.vist = v → (v, some m) ∈ resumoJoin view metas) ∧
    ((metas.map normMeta).countP (fun m => m.vist == v) = 0 →
      (v, none) ∈ resumoJoin view metas ∧ metaFill none = ⟨"", 0, 0⟩) ∧
    (∀ p ∈ resumoJoin view metas, p.1 ∈ grpVists view ∧
      (p.2 = none ∨ ∃ m ∈ metas.map normMeta, p.2 = some m ∧ m.vist = p.1)) := by
  refine ⟨?_, ?_, ?_⟩
  · intro m hm hmv
    exact leftMerge_has_some hv m hm hmv
  · intro hz
    exact ⟨leftMerge_has_none hv hz, rfl⟩
  · intro p hp
    exact leftMerge_sound hp

/-- Concrete inputs for the C3 witness. -/
def c3viewW : List Rec := [⟨0, "U", "X", some 160, "C"⟩]

def c3metasW : List MetaRow := [⟨"C", "FIXO", 9, 20, 5⟩]

theorem claim_C3_witness :
    ("C" ∈ grpVists c3viewW ∧
     normMeta ⟨"C", "FIXO", 9, 20, 5⟩ ∈ c3metasW.map normMeta ∧
     (normMeta ⟨"C", "FIXO", 9, 20, 5⟩).vist = "C") ∧
    ("C", some (normMeta ⟨"C", "FIXO", 9, 20, 5⟩)) ∈ resumoJoin c3viewW c3metasW :=
  ⟨by decide, (claim_C3_amended c3viewW c3metasW "C" (by decide)).1
    (normMeta ⟨"C", "FIXO", 9, 20, 5⟩) (by decide) (by decide)⟩

/-! ### Claim C9: the day used by the daily ranking -/

theorem sorted_le_getLast : ∀ {l : List Nat}, l.Pairwise (· ≤ ·) →
    ∀ {m : Nat}, l.getLast? = some m → ∀ d ∈ l, d ≤ m := by
  intro l
  induction l with
  | nil =>
      intro _ m hm
      simp at hm
  | cons a l ih =>
      intro hs m hm d hd
      obtain ⟨ha, hl⟩ := List.pairwise_cons.mp hs
      rcases l with _ | ⟨b, l'⟩
      · simp at hm
        rcases List.mem_singleton.mp hd with rfl
        omega
      · rw [List.getLast?_cons_cons] at hm
        have hmmem : m ∈ b :: l' :=
          List.mem_of_mem_getLast? (by rw [hm]; rfl)
        rcases List.mem_cons.mp hd with rfl | hd
        · exact ha m hmmem
        · exact ih hl hm d hd

/-- C9: with at least one valid date in the filtered view, the daily ranking
uses the chosen day as-is when it has records (no substitution message);
otherwise it uses the greatest available date ≤ the chosen day when one
exists, or the greatest available date overall when none precedes it, and in
both fallback cases the substitution is surfaced. -/
theorem claim_C9 (datesOk : List Nat) (rankDay : Nat) (hne : datesOk ≠ []) :
    (rankDay ∈ datesOk → usedDay datesOk rankDay = (rankDay, false)) ∧
    (rankDay ∉ datesOk → (∃ d ∈ datesOk, d ≤ rankDay) →
      (usedDay datesOk rankDay).1 ∈ datesOk ∧
      (usedDay datesOk rankDay).1 ≤ rankDay ∧
      (∀ d ∈ datesOk, d ≤ rankDay → d ≤ (usedDay datesOk rankDay).1) ∧
      (usedDay datesOk rankDay).2 = true) ∧
    (rankDay ∉ datesOk → (∀ d ∈ datesOk, ¬ d ≤ rankDay) →
      (usedDay datesOk rankDay).1 ∈ datesOk ∧
      (∀ d ∈ datesOk, d ≤ (usedDay datesOk rankDay).1) ∧
      (usedDay datesOk rankDay).2 = true) := by
  have hperm : (datesOk.insertionSort (· ≤ ·)).Perm datesOk :=
    List.perm_insertionSort (· ≤ ·) datesOk
  have hsorted : (datesOk.insertionSort (· ≤ ·)).Pairwise (· ≤ ·) :=
    List.sorted_insertionSort (· ≤ ·) datesOk
  refine ⟨?_, ?_, ?_⟩
  · intro hmem
    rw [usedDay, if_pos (hperm.mem_iff.mpr hmem)]
  · intro hnot hex
    obtain ⟨d0, hd0, hd0le⟩ := hex
    have hd0avail : d0 ∈ (datesOk.insertionSort (· ≤ ·)).filter (· ≤ rankDay) :=
      List.mem_filter.mpr ⟨hperm.mem_iff.mpr hd0, by simpa using hd0le⟩
    have hcne : (datesOk.insertionSort (· ≤ ·)).filter (· ≤ rankDay) ≠ [] :=
      List.ne_nil_of_mem hd0avail
    have hlast := List.getLast?_eq_getLast _ hcne
    set m := ((datesOk.insertionSort (· ≤ ·)).filter (· ≤ rankDay)).getLast hcne
      with hmdef
    have hmem : m ∈ (datesOk.insertionSort (· ≤ ·)).filter (· ≤ rankDay) :=
      List.mem_of_mem_getLast? (by rw [hlast]; rfl)
    obtain ⟨hmavail, hmle⟩ := List.mem_filter.mp hmem
    have hval : usedDay datesOk rankDay = (m, true) := by
      rw [usedDay, if_neg (fun hc => hnot (hperm.mem_iff.mp hc)), hlast]
    rw [hval]
    refine ⟨hperm.mem_iff.mp hmavail, by simpa using hmle, ?_, rfl⟩
    intro d hd hdle
    have hdc : d ∈ (datesOk.insertionSort (· ≤ ·)).filter (· ≤ rankDay) :=
      List.mem_filter.mpr ⟨hperm.mem_iff.mpr hd, by simpa using hdle⟩
    exact sorted_le_getLast (hsorted.filter _) hlast d hdc
  · intro hnot hall
    have hcnil : (datesOk.insertionSort (· ≤ ·)).filter (· ≤ rankDay) = [] := by
      rw [List.filter_eq_nil_iff]
      intro a ha
      simpa using hall a (hperm.mem_iff.mp ha)
    have hanil : datesOk.insertionSort (· ≤ ·) ≠ [] := by
      intro hc
      apply hne
      have hp2 := hperm.symm
      rw [hc] at hp2
      rw [← List.length_eq_zero]
      rw [hp2.length_eq]
      rfl
    have hlast := List.getLast?_eq_getLast (datesOk.insertionSort (· ≤ ·)) hanil
    set m := (datesOk.insertionSort (· ≤ ·)).getLast hanil with hmdef
    have hmavail : m ∈ datesOk.insertionSort (· ≤ ·) :=
      List.mem_of_mem_getLast? (by rw [hlast]; rfl)
    have hval : usedDay datesOk rankDay = (m, true) := by
      rw [usedDay, if_neg (fun hc => hnot (hperm.mem_iff.mp hc)), hcnil]
      simp [hlast]
    rw [hval]
    refine ⟨hperm.mem_iff.mp hmavail, ?_, rfl⟩
    intro d hd
    exact sorted_le_getLast hsorted hlast d (hperm.mem_iff.mpr hd)

theorem claim_C9_witness :
    (([3, 7, 5] : List Nat) ≠ [] ∧ (6 : Nat) ∉ ([3, 7, 5] : List Nat) ∧
     (∃ d ∈ ([3, 7, 5] : List Nat), d ≤ 6)) ∧
    ((usedDay [3, 7, 5] 6).1 ∈ ([3, 7, 5] : List Nat) ∧
     (usedDay [3, 7, 5] 6).1 ≤ 6 ∧
     (∀ d ∈ ([3, 7, 5] : List Nat), d ≤ 6 → d ≤ (usedDay [3, 7, 5] 6).1) ∧
     (usedDay [3, 7, 5] 6).2 = true) :=
  ⟨⟨by decide, by decide, by decide⟩,
    (claim_C9 [3, 7, 5] 6 (by decide)).2.1 (by decide) (by decide)⟩
